import Mathlib

/-!
Verification of the heightmap-to-cylinder mesh generator (`src/main.py`).

The Python source is shallowly embedded as follows:

* the heightmap (a `height × width` array of normalized intensities) is a
  function `G : ℕ → ℕ → ℝ` together with the explicit dimensions
  `height width : ℕ` (Python reads them from `heightmap.shape`);
* Python floats are idealized as real numbers `ℝ`; `math.cos`, `math.sin`,
  `math.sqrt` become `Real.cos`, `Real.sin`, `Real.sqrt`;
* `process_vertices` builds its three parallel output lists by the same
  row-major double loop (`for y in range(height): for x in range(width)`),
  rendered as `(List.range height).flatMap (fun y => (List.range width).map …)`;
* `process_faces` works on Python `int`s, so its vertex indices are
  embedded as `ℤ` (for `width = 0` the Python expression `width - 1`
  is `-1`, which `ℕ` subtraction would misrepresent);
* Python's `ZeroDivisionError` is modelled by an `Except`-valued variant
  `process_verticesE` in which every division site of the source goes
  through `pydiv`, which fails exactly when the divisor is zero;
  `process_vertices` is the same computation with Lean's total division,
  and the two agree (`.ok`) whenever `2 ≤ height` and `2 ≤ width`.
-/

namespace HeightmapToCylinder

/-- Source constant `PIXEL_SIZE = 0.019` (19μm resolution). -/
noncomputable def PIXEL_SIZE : ℝ := 0.019

/-- Source constant `DEPTH_FACTOR = 0.1` (max depth is 10% of the radius). -/
noncomputable def DEPTH_FACTOR : ℝ := 0.1

/-- Source: `center_x, center_y = 0, 0` (the cylinder axis). -/
noncomputable def center_x : ℝ := 0

/-- Source: `center_x, center_y = 0, 0` (the cylinder axis). -/
noncomputable def center_y : ℝ := 0

/-- Source line `theta = (x * (2 * math.pi)) / (width - 1)`. -/
noncomputable def theta (width x : ℕ) : ℝ :=
  ((x : ℝ) * (2 * Real.pi)) / ((width : ℝ) - 1)

/-- Source line `world_z = (y / (height - 1)) * (height * PIXEL_SIZE)`. -/
noncomputable def world_z (height y : ℕ) : ℝ :=
  ((y : ℝ) / ((height : ℝ) - 1)) * ((height : ℝ) * PIXEL_SIZE)

/-- Source line `base_x = radius * math.cos(theta)`. -/
noncomputable def base_x (radius : ℝ) (width x : ℕ) : ℝ :=
  radius * Real.cos (theta width x)

/-- Source line `base_y = radius * math.sin(theta)`. -/
noncomputable def base_y (radius : ℝ) (width x : ℕ) : ℝ :=
  radius * Real.sin (theta width x)

/-- Source line `length = math.sqrt(vector_x ** 2 + vector_y ** 2)` with
`vector_x = base_x - center_x`, `vector_y = base_y - center_y`. -/
noncomputable def length (radius : ℝ) (width x : ℕ) : ℝ :=
  Real.sqrt ((base_x radius width x - center_x) ^ 2 +
    (base_y radius width x - center_y) ^ 2)

/-- The position the source computes for cell `(y, x)`:
`depth_offset = heightmap[y, x] * max_depth`; when `length > 0`,
`scale = (radius - depth_offset) / length` and the point
`(center + vector * scale)` is emitted, otherwise the undisplaced
`(base_x, base_y)`; the third component is `world_z`. -/
noncomputable def positionAt (G : ℕ → ℕ → ℝ) (height width : ℕ)
    (radius max_depth : ℝ) (y x : ℕ) : ℝ × ℝ × ℝ :=
  if length radius width x > 0 then
    (center_x + (base_x radius width x - center_x) *
        ((radius - G y x * max_depth) / length radius width x),
     center_y + (base_y radius width x - center_y) *
        ((radius - G y x * max_depth) / length radius width x),
     world_z height y)
  else
    (base_x radius width x, base_y radius width x, world_z height y)

/-- Source line `uvs.append((x / (width - 1), y / (height - 1)))`. -/
noncomputable def uvAt (height width y x : ℕ) : ℝ × ℝ :=
  ((x : ℝ) / ((width : ℝ) - 1), (y : ℝ) / ((height : ℝ) - 1))

/-- Source line `normals.append((math.cos(theta), math.sin(theta), 0))`. -/
noncomputable def normalAt (width x : ℕ) : ℝ × ℝ × ℝ :=
  (Real.cos (theta width x), Real.sin (theta width x), 0)

/-- `process_vertices` (source lines 18–51): the row-major double loop
appending one position, one uv and one normal per cell, returned as the
triple `(vertices, uvs, normals)`.  (The `sys.stdout` progress writes are
I/O only and carry no data.) -/
noncomputable def process_vertices (G : ℕ → ℕ → ℝ) (height width : ℕ)
    (radius max_depth : ℝ) :
    List (ℝ × ℝ × ℝ) × List (ℝ × ℝ) × List (ℝ × ℝ × ℝ) :=
  ((List.range height).flatMap (fun y =>
      (List.range width).map (fun x => positionAt G height width radius max_depth y x)),
   (List.range height).flatMap (fun y =>
      (List.range width).map (fun x => uvAt height width y x)),
   (List.range height).flatMap (fun _y =>
      (List.range width).map (fun x => normalAt width x)))

/-- `process_faces` (source lines 53–75): the interior quads
(`for y in range(height-1): for x in range(width-1)`) followed by the seam
quads (`for y in range(height-1)`), two triangles each, all appended into
one list.  Indices are Python `int`s, embedded as `ℤ`. -/
def process_faces (height width : ℕ) : List (ℤ × ℤ × ℤ) :=
  ((List.range (height - 1)).flatMap (fun y =>
    (List.range (width - 1)).flatMap (fun x =>
      let v0 : ℤ := (y : ℤ) * (width : ℤ) + (x : ℤ)
      let v1 : ℤ := v0 + 1
      let v2 : ℤ := v0 + (width : ℤ)
      let v3 : ℤ := v2 + 1
      [(v0, v1, v3), (v0, v3, v2)])))
  ++ ((List.range (height - 1)).flatMap (fun y =>
      let v0 : ℤ := (y : ℤ) * (width : ℤ) + ((width : ℤ) - 1)
      let v1 : ℤ := (y : ℤ) * (width : ℤ)
      let v2 : ℤ := ((y : ℤ) + 1) * (width : ℤ) + ((width : ℤ) - 1)
      let v3 : ℤ := ((y : ℤ) + 1) * (width : ℤ)
      [(v0, v1, v3), (v0, v3, v2)]))

/-- The triangle list exactly as claim C2 words it: first, for each
`y in [0, H-2]` and `x in [0, W-2]` (row-major), the two interior
triangles `(v0, v1, v3)` and `(v0, v3, v2)` with `v0 = y*W+x`,
`v1 = v0+1`, `v2 = v0+W`, `v3 = v2+1`; then, for each `y in [0, H-2]`,
the two seam triangles with `v0 = y*W+(W-1)`, `v1 = y*W`,
`v2 = (y+1)*W+(W-1)`, `v3 = (y+1)*W`. -/
def facesSpec (H W : ℕ) : List (ℤ × ℤ × ℤ) :=
  ((List.range (H - 1)).flatMap (fun y =>
    (List.range (W - 1)).flatMap (fun x =>
      let v0 : ℤ := (y : ℤ) * (W : ℤ) + (x : ℤ)
      let v1 : ℤ := v0 + 1
      let v2 : ℤ := v0 + (W : ℤ)
      let v3 : ℤ := v2 + 1
      [(v0, v1, v3), (v0, v3, v2)])))
  ++ ((List.range (H - 1)).flatMap (fun y =>
      let v0 : ℤ := (y : ℤ) * (W : ℤ) + ((W : ℤ) - 1)
      let v1 : ℤ := (y : ℤ) * (W : ℤ)
      let v2 : ℤ := ((y : ℤ) + 1) * (W : ℤ) + ((W : ℤ) - 1)
      let v3 : ℤ := ((y : ℤ) + 1) * (W : ℤ)
      [(v0, v1, v3), (v0, v3, v2)]))

/-- Distance of a produced vertex position from the cylinder axis,
`‖(position.x, position.y)‖`. -/
noncomputable def axisDist (p : ℝ × ℝ × ℝ) : ℝ :=
  Real.sqrt (p.1 ^ 2 + p.2.1 ^ 2)

/-- The one runtime error the Python source can actually raise inside the
core functions: `ZeroDivisionError` from an unguarded division. -/
inductive PyError where
  | zeroDivisionError
  deriving DecidableEq

/-- Python division: raises `ZeroDivisionError` when the divisor is zero,
otherwise returns the quotient. -/
noncomputable def pydiv (a b : ℝ) : Except PyError ℝ :=
  if b = 0 then .error .zeroDivisionError else .ok (a / b)

/-- Error propagation (a raised exception aborts the computation). -/
def bindE {α β : Type} (m : Except PyError α) (f : α → Except PyError β) :
    Except PyError β :=
  match m with
  | .error e => .error e
  | .ok a => f a

/-- Run an exception-raising computation over a list in order, stopping at
the first error (Python loop semantics). -/
def exceptMapM {α β : Type} (f : α → Except PyError β) :
    List α → Except PyError (List β)
  | [] => .ok []
  | a :: l => bindE (f a) (fun b => bindE (exceptMapM f l) (fun bs => .ok (b :: bs)))

/-- The per-cell computation of `process_vertices` with every division
site of the source (`theta`, `world_z`, the guarded `scale`, the two uv
coordinates) modelled by `pydiv`, in source order. -/
noncomputable def cellE (G : ℕ → ℕ → ℝ) (height width : ℕ)
    (radius max_depth : ℝ) (y x : ℕ) :
    Except PyError ((ℝ × ℝ × ℝ) × (ℝ × ℝ) × (ℝ × ℝ × ℝ)) :=
  bindE (pydiv ((x : ℝ) * (2 * Real.pi)) ((width : ℝ) - 1)) (fun th =>
  bindE (pydiv (y : ℝ) ((height : ℝ) - 1)) (fun zf =>
  let wz := zf * ((height : ℝ) * PIXEL_SIZE)
  let bx := radius * Real.cos th
  let b_y := radius * Real.sin th
  let vx := bx - center_x
  let vy := b_y - center_y
  let len := Real.sqrt (vx ^ 2 + vy ^ 2)
  let depth_offset := G y x * max_depth
  bindE (if len > 0 then
          bindE (pydiv (radius - depth_offset) len) (fun s =>
            .ok (center_x + vx * s, center_y + vy * s))
        else .ok (bx, b_y)) (fun a =>
  bindE (pydiv (x : ℝ) ((width : ℝ) - 1)) (fun u =>
  bindE (pydiv (y : ℝ) ((height : ℝ) - 1)) (fun v =>
  .ok ((a.1, a.2, wz), (u, v), (Real.cos th, Real.sin th, 0)))))))

/-- `process_vertices` with Python exception semantics: the double loop
runs row by row, cell by cell, and the first `ZeroDivisionError` aborts
the whole call with no output. -/
noncomputable def process_verticesE (G : ℕ → ℕ → ℝ) (height width : ℕ)
    (radius max_depth : ℝ) :
    Except PyError (List (ℝ × ℝ × ℝ) × List (ℝ × ℝ) × List (ℝ × ℝ × ℝ)) :=
  bindE (exceptMapM (fun y =>
      exceptMapM (fun x => cellE G height width radius max_depth y x)
        (List.range width)) (List.range height)) (fun rows =>
    let cells := rows.flatten
    .ok (cells.map (fun c => c.1), cells.map (fun c => c.2.1),
         cells.map (fun c => c.2.2)))

/-! ### Helper lemmas -/

@[simp]
theorem bindE_ok {α β : Type} (a : α) (f : α → Except PyError β) :
    bindE (.ok a) f = f a := rfl

@[simp]
theorem bindE_error {α β : Type} (e : PyError) (f : α → Except PyError β) :
    bindE (.error e) f = .error e := rfl

theorem pydiv_of_ne {b : ℝ} (a : ℝ) (h : b ≠ 0) : pydiv a b = .ok (a / b) := by
  simp [pydiv, h]

theorem pydiv_of_eq {b : ℝ} (a : ℝ) (h : b = 0) :
    pydiv a b = .error .zeroDivisionError := by
  simp [pydiv, h]

/-- The length of the vector from the axis to the undisplaced ring point is
`|radius|`: the radical `(r cos θ)² + (r sin θ)²` collapses to `r²`. -/
theorem length_eq_abs (radius : ℝ) (width x : ℕ) :
    length radius width x = |radius| := by
  unfold length base_x base_y center_x center_y
  rw [sub_zero, sub_zero]
  have hs : Real.sin (theta width x) ^ 2 + Real.cos (theta width x) ^ 2 = 1 :=
    Real.sin_sq_add_cos_sq (theta width x)
  have h : (radius * Real.cos (theta width x)) ^ 2 +
      (radius * Real.sin (theta width x)) ^ 2 = radius ^ 2 := by
    linear_combination radius ^ 2 * hs
  rw [h, Real.sqrt_sq_eq_abs]

/-- A `flatMap` whose rows all have length `k` has length `rows * k`. -/
theorem length_flatMap_const {ι α : Type} (g : ι → List α) (k : ℕ)
    (hk : ∀ i, (g i).length = k) (l : List ι) :
    (l.flatMap g).length = l.length * k := by
  induction l with
  | nil => simp
  | cons a t ih =>
      rw [List.flatMap_cons, List.length_append, hk, ih, List.length_cons]
      ring

/-- The row-major grid flatten has length `H * W`. -/
theorem length_grid {α : Type} (f : ℕ → ℕ → α) (H W : ℕ) :
    ((List.range H).flatMap (fun i => (List.range W).map (f i))).length = H * W := by
  rw [length_flatMap_const _ W (fun i => by simp) _, List.length_range]

/-- Row-major indexing: entry `y*W + x` of the flattened grid is `f y x`. -/
theorem getElem?_grid {α : Type} (f : ℕ → ℕ → α) {H W y x : ℕ}
    (hy : y < H) (hx : x < W) :
    ((List.range H).flatMap (fun i => (List.range W).map (f i)))[y * W + x]? =
      some (f y x) := by
  induction H with
  | zero => exact absurd hy (Nat.not_lt_zero y)
  | succ n ih =>
      rw [List.range_succ, List.flatMap_append]
      by_cases h : y < n
      · rw [List.getElem?_append_left (by
          rw [length_grid]
          have h1 : y * W + x < y * W + W := Nat.add_lt_add_left hx _
          have h2 : y * W + W = (y + 1) * W := (Nat.succ_mul y W).symm
          have h3 : (y + 1) * W ≤ n * W := Nat.mul_le_mul_right W h
          omega)]
        exact ih h
      · have hyn : y = n := by omega
        subst hyn
        rw [List.getElem?_append_right (by rw [length_grid]; exact Nat.le_add_right _ _)]
        rw [length_grid]
        have hxx : y * W + x - y * W = x := by omega
        rw [hxx]
        simp only [List.flatMap_cons, List.flatMap_nil, List.append_nil]
        rw [List.getElem?_map, List.getElem?_range hx]
        rfl

/-- Membership in the flattened grid is membership at some cell. -/
theorem mem_grid {α : Type} {f : ℕ → ℕ → α} {H W : ℕ} {p : α}
    (hp : p ∈ (List.range H).flatMap (fun i => (List.range W).map (f i))) :
    ∃ y x, y < H ∧ x < W ∧ p = f y x := by
  obtain ⟨y, hy, hp⟩ := List.mem_flatMap.mp hp
  obtain ⟨x, hx, hp⟩ := List.mem_map.mp hp
  exact ⟨y, x, List.mem_range.mp hy, List.mem_range.mp hx, hp.symm⟩

/-- When every element maps to `.ok`, the monadic map is `.ok` of the map. -/
theorem exceptMapM_ok {α β : Type} {f : α → Except PyError β} {g : α → β}
    (l : List α) (h : ∀ a ∈ l, f a = .ok (g a)) :
    exceptMapM f l = .ok (l.map g) := by
  induction l with
  | nil => rfl
  | cons a t ih =>
      rw [exceptMapM, h a (List.mem_cons_self a t),
        ih (fun b hb => h b (List.mem_cons_of_mem a hb))]
      rfl

/-- An error on the first element aborts the whole monadic map. -/
theorem exceptMapM_error_head {α β : Type} {f : α → Except PyError β}
    {a : α} {e : PyError} (l : List α) (h : f a = .error e) :
    exceptMapM f (a :: l) = .error e := by
  rw [exceptMapM, h]
  rfl

/-- On a grid with `2 ≤ height` and `2 ≤ width` no division in the cell
computation has a zero divisor, so the exception-aware cell computation
returns exactly the pure cell values. -/
theorem cellE_eq_ok (G : ℕ → ℕ → ℝ) {height width : ℕ} (radius max_depth : ℝ)
    (y x : ℕ) (hH : 2 ≤ height) (hW : 2 ≤ width) :
    cellE G height width radius max_depth y x =
      .ok (positionAt G height width radius max_depth y x,
           uvAt height width y x, normalAt width x) := by
  have hW1 : ((width : ℝ) - 1) ≠ 0 := by
    have : (2 : ℝ) ≤ (width : ℝ) := by exact_mod_cast hW
    linarith
  have hH1 : ((height : ℝ) - 1) ≠ 0 := by
    have : (2 : ℝ) ≤ (height : ℝ) := by exact_mod_cast hH
    linarith
  unfold cellE
  simp only [pydiv_of_ne _ hW1, pydiv_of_ne _ hH1, bindE_ok]
  unfold positionAt uvAt normalAt world_z length base_x base_y theta
  by_cases hlen : Real.sqrt
      ((radius * Real.cos ((x : ℝ) * (2 * Real.pi) / ((width : ℝ) - 1)) - center_x) ^ 2 +
       (radius * Real.sin ((x : ℝ) * (2 * Real.pi) / ((width : ℝ) - 1)) - center_y) ^ 2) > 0
  · rw [if_pos hlen, if_pos hlen, pydiv_of_ne _ (ne_of_gt hlen)]
    rfl
  · rw [if_neg hlen, if_neg hlen]
    rfl

/-- On a valid grid (`2 ≤ height`, `2 ≤ width`) the exception-aware
`process_verticesE` succeeds and returns exactly `process_vertices`:
no `ZeroDivisionError` can occur. -/
theorem process_verticesE_eq_ok (G : ℕ → ℕ → ℝ) {height width : ℕ}
    (radius max_depth : ℝ) (hH : 2 ≤ height) (hW : 2 ≤ width) :
    process_verticesE G height width radius max_depth =
      .ok (process_vertices G height width radius max_depth) := by
  unfold process_verticesE
  rw [exceptMapM_ok (g := fun y => (List.range width).map (fun x =>
        (positionAt G height width radius max_depth y x,
         uvAt height width y x, normalAt width x)))
      _ (fun y _ => exceptMapM_ok _ (fun x _ => cellE_eq_ok G radius max_depth y x hH hW)),
    bindE_ok]
  unfold process_vertices
  simp [List.map_flatten, List.map_map, List.flatMap_def, Function.comp_def]

/-- With `width = 1` the very first cell divides by `width - 1 = 0`
computing `theta`, so the whole call raises `ZeroDivisionError` (before
any vertex is produced). -/
theorem process_verticesE_width_one (G : ℕ → ℕ → ℝ) {height : ℕ}
    (radius max_depth : ℝ) (hH : 1 ≤ height) :
    process_verticesE G height 1 radius max_depth =
      .error .zeroDivisionError := by
  obtain ⟨n, rfl⟩ : ∃ n, height = n + 1 := ⟨height - 1, by omega⟩
  have hcell : cellE G (n + 1) 1 radius max_depth 0 0 =
      .error .zeroDivisionError := by
    unfold cellE
    rw [pydiv_of_eq _ (by norm_num)]
    rfl
  have hinner : exceptMapM (fun x => cellE G (n + 1) 1 radius max_depth 0 x)
      (List.range 1) = .error .zeroDivisionError := by
    rw [show List.range 1 = [0] from rfl]
    exact exceptMapM_error_head _ hcell
  have houter : exceptMapM (fun y => exceptMapM
      (fun x => cellE G (n + 1) 1 radius max_depth y x) (List.range 1))
      (List.range (n + 1)) = .error .zeroDivisionError := by
    rw [show List.range (n + 1) = 0 :: List.map Nat.succ (List.range n) from
      List.range_succ_eq_map n]
    exact exceptMapM_error_head _ hinner
  unfold process_verticesE
  rw [houter]
  rfl

/-- With `height = 1` (and at least one column with `width ≠ 1`) the very
first cell divides by `height - 1 = 0` computing `world_z`, so the whole
call raises `ZeroDivisionError` (before any vertex is produced). -/
theorem process_verticesE_height_one (G : ℕ → ℕ → ℝ) {width : ℕ}
    (radius max_depth : ℝ) (hW : 2 ≤ width) :
    process_verticesE G 1 width radius max_depth =
      .error .zeroDivisionError := by
  have hW1 : ((width : ℝ) - 1) ≠ 0 := by
    have : (2 : ℝ) ≤ (width : ℝ) := by exact_mod_cast hW
    linarith
  have hcell : cellE G 1 width radius max_depth 0 0 =
      .error .zeroDivisionError := by
    unfold cellE
    rw [pydiv_of_ne _ hW1, bindE_ok, pydiv_of_eq _ (by norm_num)]
    rfl
  obtain ⟨m, rfl⟩ : ∃ m, width = m + 2 := ⟨width - 2, by omega⟩
  have hinner : exceptMapM (fun x => cellE G 1 (m + 2) radius max_depth 0 x)
      (List.range (m + 2)) = .error .zeroDivisionError := by
    rw [show List.range (m + 2) = 0 :: List.map Nat.succ (List.range (m + 1)) from
      List.range_succ_eq_map (m + 1)]
    exact exceptMapM_error_head _ hcell
  have houter : exceptMapM (fun y => exceptMapM
      (fun x => cellE G 1 (m + 2) radius max_depth y x) (List.range (m + 2)))
      (List.range 1) = .error .zeroDivisionError := by
    rw [show List.range 1 = [0] from rfl]
    exact exceptMapM_error_head _ hinner
  unfold process_verticesE
  rw [houter]
  rfl

/-- With `height = 0` both loops are empty: the call succeeds with empty
output (no validation error is raised). -/
theorem process_verticesE_height_zero (G : ℕ → ℕ → ℝ) (width : ℕ)
    (radius max_depth : ℝ) :
    process_verticesE G 0 width radius max_depth = .ok ([], [], []) := rfl

/-- With `width = 0` every row is empty: the call succeeds with empty
output (no validation error is raised). -/
theorem process_verticesE_width_zero (G : ℕ → ℕ → ℝ) (height : ℕ)
    (radius max_depth : ℝ) :
    process_verticesE G height 0 radius max_depth = .ok ([], [], []) := by
  have hrows := exceptMapM_ok
    (f := fun y => exceptMapM (fun x => cellE G height 0 radius max_depth y x)
      (List.range 0))
    (g := fun _ => ([] : List ((ℝ × ℝ × ℝ) × (ℝ × ℝ) × (ℝ × ℝ × ℝ))))
    (List.range height) (fun y _ => rfl)
  unfold process_verticesE
  rw [hrows, bindE_ok]
  have hflat : (List.map (fun _ => ([] : List ((ℝ × ℝ × ℝ) × (ℝ × ℝ) × (ℝ × ℝ × ℝ))))
      (List.range height)).flatten = [] := by
    rw [List.flatten_eq_nil_iff]
    intro l hl
    obtain ⟨a, -, ha⟩ := List.mem_map.mp hl
    exact ha.symm
  rw [hflat]
  rfl

/-- A `flatMap` of empty rows is empty. -/
theorem flatMap_nil_of {ι α : Type} (l : List ι) :
    (l.flatMap fun _ => ([] : List α)) = [] := by
  induction l with
  | nil => rfl
  | cons a t ih => rw [List.flatMap_cons, ih]; rfl

/-- Two lists built over the same index list by pointwise-equal row
functions have equal flattenings. -/
theorem flatMap_congr {ι α : Type} {f g : ι → List α} (l : List ι)
    (h : ∀ i ∈ l, f i = g i) : l.flatMap f = l.flatMap g := by
  induction l with
  | nil => rfl
  | cons a t ih =>
      rw [List.flatMap_cons, List.flatMap_cons, h a (List.mem_cons_self a t),
        ih (fun i hi => h i (List.mem_cons_of_mem a hi))]

/-- Unconditional length of `process_faces`: `2*(H-1)*(W-1)` interior
triangles plus `2*(H-1)` seam triangles. -/
theorem process_faces_length (H W : ℕ) :
    (process_faces H W).length = 2 * (H - 1) * (W - 1) + 2 * (H - 1) := by
  have hrow : ∀ y : ℕ, ((List.range (W - 1)).flatMap (fun x =>
      let v0 : ℤ := (y : ℤ) * (W : ℤ) + (x : ℤ)
      let v1 : ℤ := v0 + 1
      let v2 : ℤ := v0 + (W : ℤ)
      let v3 : ℤ := v2 + 1
      [(v0, v1, v3), (v0, v3, v2)])).length = (W - 1) * 2 := by
    intro y
    have h := length_flatMap_const (fun x : ℕ =>
      let v0 : ℤ := (y : ℤ) * (W : ℤ) + (x : ℤ)
      let v1 : ℤ := v0 + 1
      let v2 : ℤ := v0 + (W : ℤ)
      let v3 : ℤ := v2 + 1
      [(v0, v1, v3), (v0, v3, v2)]) 2 (fun x => rfl) (List.range (W - 1))
    rw [List.length_range] at h
    exact h
  have hseam := length_flatMap_const (fun y : ℕ =>
      let v0 : ℤ := (y : ℤ) * (W : ℤ) + ((W : ℤ) - 1)
      let v1 : ℤ := (y : ℤ) * (W : ℤ)
      let v2 : ℤ := ((y : ℤ) + 1) * (W : ℤ) + ((W : ℤ) - 1)
      let v3 : ℤ := ((y : ℤ) + 1) * (W : ℤ)
      [(v0, v1, v3), (v0, v3, v2)]) 2 (fun y => rfl) (List.range (H - 1))
  have houter := length_flatMap_const (fun y : ℕ =>
      (List.range (W - 1)).flatMap (fun x =>
        let v0 : ℤ := (y : ℤ) * (W : ℤ) + (x : ℤ)
        let v1 : ℤ := v0 + 1
        let v2 : ℤ := v0 + (W : ℤ)
        let v3 : ℤ := v2 + 1
        [(v0, v1, v3), (v0, v3, v2)])) ((W - 1) * 2) hrow (List.range (H - 1))
  unfold process_faces
  rw [List.length_append, houter, hseam, List.length_range]
  ring

/-! ### Claims -/

/-- C2: for every `H ≥ 2` and `W ≥ 2`, `process_faces` returns exactly the
ordered triangle list the spec describes: first, for each `y ∈ [0, H-2]`
and `x ∈ [0, W-2]` in row-major order, the interior triangles
`(v0, v1, v3)` and `(v0, v3, v2)` with `v0 = y*W+x`, `v1 = v0+1`,
`v2 = v0+W`, `v3 = v2+1` (fixed `v0`–`v3` diagonal); then, for each
`y ∈ [0, H-2]`, the seam triangles with `v0 = y*W+(W-1)`, `v1 = y*W`,
`v2 = (y+1)*W+(W-1)`, `v3 = (y+1)*W`. -/
theorem C2_faces_exact (H W : ℕ) (hH : 2 ≤ H) (hW : 2 ≤ W) :
    process_faces H W = facesSpec H W := rfl

theorem C2_faces_exact_witness : process_faces 2 2 = facesSpec 2 2 :=
  C2_faces_exact 2 2 (by norm_num) (by norm_num)

/-- C3: for every grid with `H ≥ 2` and `W ≥ 2`, the three vertex arrays
each have length exactly `H*W` and the triangle list has length exactly
`2*(H-1)*W`. -/
theorem C3_counts (G : ℕ → ℕ → ℝ) (H W : ℕ) (radius max_depth : ℝ)
    (hH : 2 ≤ H) (hW : 2 ≤ W) :
    (process_vertices G H W radius max_depth).1.length = H * W ∧
    (process_vertices G H W radius max_depth).2.1.length = H * W ∧
    (process_vertices G H W radius max_depth).2.2.length = H * W ∧
    (process_faces H W).length = 2 * (H - 1) * W := by
  refine ⟨length_grid _ _ _, length_grid _ _ _, length_grid _ _ _, ?_⟩
  rw [process_faces_length]
  obtain ⟨b, rfl⟩ : ∃ b, W = b + 1 := ⟨W - 1, by omega⟩
  simp only [Nat.add_sub_cancel]
  ring

theorem C3_counts_witness :
    (process_vertices (fun _ _ => (0 : ℝ)) 2 2 1 0).1.length = 4 ∧
    (process_faces 2 2).length = 4 := by
  have h := C3_counts (fun _ _ => (0 : ℝ)) 2 2 1 0 (by norm_num) (by norm_num)
  exact ⟨by simpa using h.1, by simpa using h.2.2.2⟩

/-- C4: for every `H ≥ 2` and `W ≥ 2`, every vertex index of every
triangle returned by `process_faces` lies in `[0, H*W)`, so the indices
are valid offsets into the vertex arrays of the same grid. -/
theorem C4_indices_in_range (H W : ℕ) (hH : 2 ≤ H) (hW : 2 ≤ W) :
    ∀ t ∈ process_faces H W,
      (0 ≤ t.1 ∧ t.1 < (H : ℤ) * (W : ℤ)) ∧
      (0 ≤ t.2.1 ∧ t.2.1 < (H : ℤ) * (W : ℤ)) ∧
      (0 ≤ t.2.2 ∧ t.2.2 < (H : ℤ) * (W : ℤ)) := by
  intro t ht
  have hW0 : (0 : ℤ) ≤ (W : ℤ) := by positivity
  have hW2 : (2 : ℤ) ≤ (W : ℤ) := by omega
  unfold process_faces at ht
  rcases List.mem_append.mp ht with h | h
  · obtain ⟨y, hy, h⟩ := List.mem_flatMap.mp h
    obtain ⟨x, hx, h⟩ := List.mem_flatMap.mp h
    rw [List.mem_range] at hy hx
    have hyH : (y : ℤ) + 1 ≤ (H : ℤ) - 1 := by omega
    have hxW : (x : ℤ) + 1 ≤ (W : ℤ) - 1 := by omega
    have hx0 : (0 : ℤ) ≤ (x : ℤ) := by positivity
    have hy0 : (0 : ℤ) ≤ (y : ℤ) * (W : ℤ) := by positivity
    have hmul : ((y : ℤ) + 1) * (W : ℤ) ≤ ((H : ℤ) - 1) * (W : ℤ) :=
      mul_le_mul_of_nonneg_right hyH hW0
    rcases List.mem_cons.mp h with h | h
    · subst h
      exact ⟨⟨by dsimp only; linarith, by dsimp only; linarith⟩,
             ⟨by dsimp only; linarith, by dsimp only; linarith⟩,
             ⟨by dsimp only; linarith, by dsimp only; linarith⟩⟩
    · rcases List.mem_cons.mp h with h | h
      · subst h
        exact ⟨⟨by dsimp only; linarith, by dsimp only; linarith⟩,
               ⟨by dsimp only; linarith, by dsimp only; linarith⟩,
               ⟨by dsimp only; linarith, by dsimp only; linarith⟩⟩
      · cases h
  · obtain ⟨y, hy, h⟩ := List.mem_flatMap.mp h
    rw [List.mem_range] at hy
    have hyH : (y : ℤ) + 1 ≤ (H : ℤ) - 1 := by omega
    have hy0 : (0 : ℤ) ≤ (y : ℤ) * (W : ℤ) := by positivity
    have hmul : ((y : ℤ) + 1) * (W : ℤ) ≤ ((H : ℤ) - 1) * (W : ℤ) :=
      mul_le_mul_of_nonneg_right hyH hW0
    rcases List.mem_cons.mp h with h | h
    · subst h
      exact ⟨⟨by dsimp only; linarith, by dsimp only; linarith⟩,
             ⟨by dsimp only; linarith, by dsimp only; linarith⟩,
             ⟨by dsimp only; linarith, by dsimp only; linarith⟩⟩
    · rcases List.mem_cons.mp h with h | h
      · subst h
        exact ⟨⟨by dsimp only; linarith, by dsimp only; linarith⟩,
               ⟨by dsimp only; linarith, by dsimp only; linarith⟩,
               ⟨by dsimp only; linarith, by dsimp only; linarith⟩⟩
      · cases h

theorem C4_indices_in_range_witness :
    (0 ≤ (0 : ℤ) ∧ (0 : ℤ) < ((2 : ℕ) : ℤ) * ((2 : ℕ) : ℤ)) ∧
    (0 ≤ (1 : ℤ) ∧ (1 : ℤ) < ((2 : ℕ) : ℤ) * ((2 : ℕ) : ℤ)) ∧
    (0 ≤ (3 : ℤ) ∧ (3 : ℤ) < ((2 : ℕ) : ℤ) * ((2 : ℕ) : ℤ)) :=
  C4_indices_in_range 2 2 (by norm_num) (by norm_num) (0, 1, 3) (by decide)

/-- C10 (implicit): `process_faces` performs no validation and is total:
for `H < 2` it returns the empty list; for `W = 1` it silently returns
just the seam triangles `(y, y, y+1)` and `(y, y+1, y+1)` for each
row-band — all degenerate, the first of each pair with its first two
indices equal; and for all `H`, `W` it returns a list of length
`2*(H-1)*(W-1) + 2*(H-1)` without any error. -/
theorem C10_faces_total (H W : ℕ) :
    (H < 2 → process_faces H W = []) ∧
    (process_faces H 1 = (List.range (H - 1)).flatMap (fun y =>
      [((y : ℤ), (y : ℤ), (y : ℤ) + 1), ((y : ℤ), (y : ℤ) + 1, (y : ℤ) + 1)])) ∧
    (∀ t ∈ process_faces H 1, t.1 = t.2.1 ∨ t.2.1 = t.2.2) ∧
    (process_faces H W).length = 2 * (H - 1) * (W - 1) + 2 * (H - 1) := by
  have h2 : process_faces H 1 = (List.range (H - 1)).flatMap (fun y =>
      [((y : ℤ), (y : ℤ), (y : ℤ) + 1), ((y : ℤ), (y : ℤ) + 1, (y : ℤ) + 1)]) := by
    unfold process_faces
    rw [show (1 : ℕ) - 1 = 0 from rfl, List.range_zero]
    have hA : ((List.range (H - 1)).flatMap (fun y =>
        ([] : List ℕ).flatMap (fun x =>
          let v0 : ℤ := (y : ℤ) * ((1 : ℕ) : ℤ) + (x : ℤ)
          let v1 : ℤ := v0 + 1
          let v2 : ℤ := v0 + ((1 : ℕ) : ℤ)
          let v3 : ℤ := v2 + 1
          [(v0, v1, v3), (v0, v3, v2)]))) = [] := flatMap_nil_of _
    rw [hA, List.nil_append]
    apply flatMap_congr
    intro y _
    norm_num
  refine ⟨?_, h2, ?_, process_faces_length H W⟩
  · intro hlt
    unfold process_faces
    rw [show H - 1 = 0 by omega, List.range_zero]
    rfl
  · intro t ht
    rw [h2] at ht
    obtain ⟨y, hy, ht⟩ := List.mem_flatMap.mp ht
    rcases List.mem_pair.mp ht with rfl | rfl
    · exact Or.inl rfl
    · exact Or.inr rfl

theorem C10_faces_total_witness : process_faces 1 7 = [] :=
  (C10_faces_total 1 7).1 (by norm_num)

/-- The emitted position always equals the radially displaced point
`(baseX * scale, baseY * scale, worldZ)` with
`scale = (radius - G[y][x]*maxDepth) / length`: in the guarded branch
(`length = 0`) both the fallback `(baseX, baseY)` and the displaced
formula are the origin, because `length = 0` forces
`baseX = baseY = 0`. -/
theorem positionAt_eq (G : ℕ → ℕ → ℝ) (H W : ℕ) (r d : ℝ) (y x : ℕ) :
    positionAt G H W r d y x =
      (base_x r W x * ((r - G y x * d) / length r W x),
       base_y r W x * ((r - G y x * d) / length r W x),
       world_z H y) := by
  unfold positionAt center_x center_y
  by_cases hlen : length r W x > 0
  · rw [if_pos hlen]
    rw [sub_zero, sub_zero, zero_add, zero_add]
  · rw [if_neg hlen]
    have h0 : length r W x = 0 := by
      have hn : 0 ≤ length r W x := by unfold length; positivity
      linarith [not_lt.mp hlen]
    have hsum : (base_x r W x - center_x) ^ 2 + (base_y r W x - center_y) ^ 2 ≤ 0 := by
      have h1 := h0
      unfold length at h1
      exact Real.sqrt_eq_zero'.mp h1
    have hbx2 : (base_x r W x - center_x) ^ 2 = 0 := by
      nlinarith [sq_nonneg (base_x r W x - center_x), sq_nonneg (base_y r W x - center_y)]
    have hby2 : (base_y r W x - center_y) ^ 2 = 0 := by
      nlinarith [sq_nonneg (base_x r W x - center_x), sq_nonneg (base_y r W x - center_y)]
    have hbx : base_x r W x = 0 := by
      have := (pow_eq_zero_iff two_ne_zero).mp hbx2
      unfold center_x at this
      linarith [this]
    have hby : base_y r W x = 0 := by
      have := (pow_eq_zero_iff two_ne_zero).mp hby2
      unfold center_y at this
      linarith [this]
    rw [hbx, hby, h0]
    norm_num

/-- C1: on any grid with `H ≥ 2`, `W ≥ 2`, for each cell `(y, x)` the
entry at linear index `y*W + x` of each of the three parallel arrays of
`process_vertices` is exactly: `theta = x*2π/(W-1)`,
`worldZ = (y/(H-1))*(H*pixelSize)`, position = the radially displaced
point `(baseX*scale, baseY*scale, worldZ)` at distance
`radius - G[y][x]*maxDepth` from the axis, `uv = (x/(W-1), y/(H-1))`,
`normal = (cos theta, sin theta, 0)`; row-major emission makes the linear
cell index the vertex index. -/
theorem C1_vertex_arrays (G : ℕ → ℕ → ℝ) (H W : ℕ) (radius max_depth : ℝ)
    (hH : 2 ≤ H) (hW : 2 ≤ W) (y x : ℕ) (hy : y < H) (hx : x < W) :
    theta W x = (x : ℝ) * (2 * Real.pi) / ((W : ℝ) - 1) ∧
    world_z H y = ((y : ℝ) / ((H : ℝ) - 1)) * ((H : ℝ) * PIXEL_SIZE) ∧
    (process_vertices G H W radius max_depth).1[y * W + x]? =
      some (base_x radius W x * ((radius - G y x * max_depth) / length radius W x),
            base_y radius W x * ((radius - G y x * max_depth) / length radius W x),
            world_z H y) ∧
    (process_vertices G H W radius max_depth).2.1[y * W + x]? =
      some ((x : ℝ) / ((W : ℝ) - 1), (y : ℝ) / ((H : ℝ) - 1)) ∧
    (process_vertices G H W radius max_depth).2.2[y * W + x]? =
      some (Real.cos (theta W x), Real.sin (theta W x), 0) := by
  refine ⟨rfl, rfl, ?_, ?_, ?_⟩
  · show ((List.range H).flatMap (fun y =>
      (List.range W).map (fun x => positionAt G H W radius max_depth y x)))[y * W + x]? = _
    rw [getElem?_grid _ hy hx, positionAt_eq]
  · show ((List.range H).flatMap (fun y =>
      (List.range W).map (fun x => uvAt H W y x)))[y * W + x]? = _
    rw [getElem?_grid _ hy hx]
    rfl
  · show ((List.range H).flatMap (fun _y =>
      (List.range W).map (fun x => normalAt W x)))[y * W + x]? = _
    rw [getElem?_grid (fun _ x => normalAt W x) hy hx]
    rfl

theorem C1_vertex_arrays_witness :
    (process_vertices (fun _ _ => (0 : ℝ)) 2 2 1 0).2.1[0]? = some (0, 0) := by
  have h := C1_vertex_arrays (fun _ _ => (0 : ℝ)) 2 2 1 0 (by norm_num) (by norm_num)
    0 0 (by norm_num) (by norm_num)
  have h4 := h.2.2.2.1
  norm_num at h4
  exact h4

/-- C8: the division by `length` is guarded: if `length = 0` the scaling
is skipped and the undisplaced `(baseX, baseY)` is emitted; and whenever
`radius > 0` the guard condition holds (`length > 0`), so the division is
safe and the fallback branch is unreachable. -/
theorem C8_guarded_division (G : ℕ → ℕ → ℝ) (H W : ℕ) (r d : ℝ) (y x : ℕ) :
    (length r W x = 0 →
      positionAt G H W r d y x = (base_x r W x, base_y r W x, world_z H y)) ∧
    (0 < r → 0 < length r W x ∧
      positionAt G H W r d y x =
        (center_x + (base_x r W x - center_x) * ((r - G y x * d) / length r W x),
         center_y + (base_y r W x - center_y) * ((r - G y x * d) / length r W x),
         world_z H y)) := by
  constructor
  · intro h0
    unfold positionAt
    rw [if_neg (by simp [h0])]
  · intro hr
    have hpos : 0 < length r W x := by
      rw [length_eq_abs]
      exact abs_pos.mpr (ne_of_gt hr)
    exact ⟨hpos, by unfold positionAt; rw [if_pos hpos]⟩

theorem C8_guarded_division_witness : 0 < length 1 2 0 :=
  ((C8_guarded_division (fun _ _ => (0 : ℝ)) 2 2 1 0 0 0).2 one_pos).1

/-- C7 counterexample: already for the minimal valid width `W = 2`, the
`theta` computed at column `0` and at column `W-1` are NOT identical:
`theta = 0` at column `0` but `theta = 2π` at column `1`. -/
theorem C7_counterexample : theta 2 (2 - 1) ≠ theta 2 0 := by
  unfold theta
  norm_num
  exact Real.pi_ne_zero

/-- C7 amended: for every row of a valid grid, the column-`0` and
column-`W-1` vertices have `theta` values `0` and `2π` — equal only
modulo `2π` (the claim's "identical theta" fails), hence identical
`cos theta`/`sin theta` and identical `baseX`, `baseY` before
displacement; and if the intensities at the two columns agree, the final
positions are identical. -/
theorem C7_amended (G : ℕ → ℕ → ℝ) (H W : ℕ) (r d : ℝ) (y : ℕ)
    (hH : 2 ≤ H) (hW : 2 ≤ W) (hy : y < H) :
    theta W (W - 1) = theta W 0 + 2 * Real.pi ∧
    Real.cos (theta W (W - 1)) = Real.cos (theta W 0) ∧
    Real.sin (theta W (W - 1)) = Real.sin (theta W 0) ∧
    base_x r W (W - 1) = base_x r W 0 ∧
    base_y r W (W - 1) = base_y r W 0 ∧
    (G y 0 = G y (W - 1) →
      positionAt G H W r d y (W - 1) = positionAt G H W r d y 0) := by
  have hW1 : ((W : ℝ) - 1) ≠ 0 := by
    have : (2 : ℝ) ≤ (W : ℝ) := by exact_mod_cast hW
    linarith
  have hth : theta W (W - 1) = 2 * Real.pi := by
    unfold theta
    rw [Nat.cast_sub (by omega : 1 ≤ W), Nat.cast_one]
    field_simp
  have hth0 : theta W 0 = 0 := by
    unfold theta
    simp
  have hcos : Real.cos (theta W (W - 1)) = Real.cos (theta W 0) := by
    rw [hth, hth0, Real.cos_two_pi, Real.cos_zero]
  have hsin : Real.sin (theta W (W - 1)) = Real.sin (theta W 0) := by
    rw [hth, hth0, Real.sin_two_pi, Real.sin_zero]
  have hbx : base_x r W (W - 1) = base_x r W 0 := by
    unfold base_x
    rw [hcos]
  have hby : base_y r W (W - 1) = base_y r W 0 := by
    unfold base_y
    rw [hsin]
  refine ⟨by rw [hth, hth0, zero_add], hcos, hsin, hbx, hby, ?_⟩
  intro hG
  have hlen : length r W (W - 1) = length r W 0 := by
    unfold length
    rw [hbx, hby]
  unfold positionAt
  rw [hbx, hby, hlen, hG]

theorem C7_amended_witness : theta 2 (2 - 1) = theta 2 0 + 2 * Real.pi :=
  (C7_amended (fun _ _ => (0 : ℝ)) 2 2 1 0 0 (by norm_num) (by norm_num)
    (by norm_num)).1

/-- With unit radius and zero intensity at the cell, the emitted position
is the unit ring point `(cos theta, sin theta, world_z)`. -/
theorem positionAt_unit (G : ℕ → ℕ → ℝ) (H W : ℕ) (d : ℝ) (y x : ℕ)
    (hG : G y x = 0) :
    positionAt G H W 1 d y x =
      (Real.cos (theta W x), Real.sin (theta W x), world_z H y) := by
  have h1 : length 1 W x = 1 := by rw [length_eq_abs]; norm_num
  unfold positionAt
  rw [h1, if_pos one_pos, hG]
  unfold base_x base_y center_x center_y
  norm_num

/-- C9 counterexample: in the scenario `H = 2`, `W = 3`, all intensities
`0`, `radius = 1`, `maxDepth = 0.1`, vertex 2 is at
`theta = 2*2π/(3-1) = 2π` (not `π`), so its position is `(1, 0, 0)` and
NOT `(-1, 0, 0)` as the claim states. -/
theorem C9_counterexample :
    (process_vertices (fun _ _ => (0 : ℝ)) 2 3 1 0.1).1[2]? ≠
      some ((-1 : ℝ), 0, 0) := by
  have h : (process_vertices (fun _ _ => (0 : ℝ)) 2 3 1 0.1).1[2]? =
      some (positionAt (fun _ _ => (0 : ℝ)) 2 3 1 0.1 0 2) :=
    getElem?_grid (fun y x => positionAt (fun _ _ => (0 : ℝ)) 2 3 1 0.1 y x)
      (y := 0) (x := 2) (show (0 : ℕ) < 2 by norm_num) (show (2 : ℕ) < 3 by norm_num)
  rw [h, positionAt_unit _ _ _ _ _ _ rfl]
  have hθ2 : theta 3 2 = 2 * Real.pi := by
    unfold theta
    push_cast
    ring
  rw [hθ2, Real.cos_two_pi, Real.sin_two_pi]
  intro hcontra
  simp only [Option.some.injEq, Prod.mk.injEq] at hcontra
  exact absurd hcontra.1 (by norm_num)

/-- C9 amended: in the scenario `H = 2`, `W = 3`, all intensities `0`,
`radius = 1`, `maxDepth = 0.1`: vertex 0 (`theta = 0`) has position
`(1, 0, 0)`; vertex 1 (`theta = π`) has position `(-1, 0, 0)`; vertex 2
(`theta = 2π`, the seam duplicate of vertex 0) has position `(1, 0, 0)`;
and `process_faces 2 3` has exactly 6 triangles. -/
theorem C9_amended :
    (process_vertices (fun _ _ => (0 : ℝ)) 2 3 1 0.1).1[0]? = some ((1 : ℝ), 0, 0) ∧
    (process_vertices (fun _ _ => (0 : ℝ)) 2 3 1 0.1).1[1]? = some ((-1 : ℝ), 0, 0) ∧
    (process_vertices (fun _ _ => (0 : ℝ)) 2 3 1 0.1).1[2]? = some ((1 : ℝ), 0, 0) ∧
    (process_faces 2 3).length = 6 := by
  have hz : world_z 2 0 = 0 := by
    unfold world_z
    norm_num
  have h0 : (process_vertices (fun _ _ => (0 : ℝ)) 2 3 1 0.1).1[0]? =
      some (positionAt (fun _ _ => (0 : ℝ)) 2 3 1 0.1 0 0) :=
    getElem?_grid (fun y x => positionAt (fun _ _ => (0 : ℝ)) 2 3 1 0.1 y x)
      (y := 0) (x := 0) (show (0 : ℕ) < 2 by norm_num) (show (0 : ℕ) < 3 by norm_num)
  have h1 : (process_vertices (fun _ _ => (0 : ℝ)) 2 3 1 0.1).1[1]? =
      some (positionAt (fun _ _ => (0 : ℝ)) 2 3 1 0.1 0 1) :=
    getElem?_grid (fun y x => positionAt (fun _ _ => (0 : ℝ)) 2 3 1 0.1 y x)
      (y := 0) (x := 1) (show (0 : ℕ) < 2 by norm_num) (show (1 : ℕ) < 3 by norm_num)
  have h2 : (process_vertices (fun _ _ => (0 : ℝ)) 2 3 1 0.1).1[2]? =
      some (positionAt (fun _ _ => (0 : ℝ)) 2 3 1 0.1 0 2) :=
    getElem?_grid (fun y x => positionAt (fun _ _ => (0 : ℝ)) 2 3 1 0.1 y x)
      (y := 0) (x := 2) (show (0 : ℕ) < 2 by norm_num) (show (2 : ℕ) < 3 by norm_num)
  have hθ0 : theta 3 0 = 0 := by unfold theta; norm_num
  have hθ1 : theta 3 1 = Real.pi := by
    unfold theta
    push_cast
    ring
  have hθ2 : theta 3 2 = 2 * Real.pi := by
    unfold theta
    push_cast
    ring
  refine ⟨?_, ?_, ?_, ?_⟩
  · rw [h0, positionAt_unit _ _ _ _ _ _ rfl, hθ0, hz, Real.cos_zero, Real.sin_zero]
  · rw [h1, positionAt_unit _ _ _ _ _ _ rfl, hθ1, hz, Real.cos_pi, Real.sin_pi]
  · rw [h2, positionAt_unit _ _ _ _ _ _ rfl, hθ2, hz, Real.cos_two_pi, Real.sin_two_pi]
  · rw [process_faces_length]

/-- Distance from the axis of the position the Projector emits: for a
positive radius it is exactly `|radius - G[y][x]*maxDepth|`. -/
theorem axisDist_positionAt (G : ℕ → ℕ → ℝ) (H W : ℕ) (r d : ℝ) (y x : ℕ)
    (hr : 0 < r) :
    axisDist (positionAt G H W r d y x) = |r - G y x * d| := by
  have hlen : length r W x = r := by
    rw [length_eq_abs]
    exact abs_of_pos hr
  rw [positionAt_eq]
  unfold axisDist base_x base_y
  rw [hlen]
  have hrne : r ≠ 0 := ne_of_gt hr
  have hrq : r * ((r - G y x * d) / r) = r - G y x * d := by
    rw [← mul_div_assoc]
    exact mul_div_cancel_left₀ _ hrne
  have hkey : (r * Real.cos (theta W x) * ((r - G y x * d) / r)) ^ 2 +
      (r * Real.sin (theta W x) * ((r - G y x * d) / r)) ^ 2 =
      (r - G y x * d) ^ 2 := by
    have hs := Real.sin_sq_add_cos_sq (theta W x)
    calc (r * Real.cos (theta W x) * ((r - G y x * d) / r)) ^ 2 +
        (r * Real.sin (theta W x) * ((r - G y x * d) / r)) ^ 2
        = (r * ((r - G y x * d) / r)) ^ 2 *
            (Real.sin (theta W x) ^ 2 + Real.cos (theta W x) ^ 2) := by ring
      _ = (r - G y x * d) ^ 2 * 1 := by rw [hrq, hs]
      _ = (r - G y x * d) ^ 2 := by ring
  show Real.sqrt ((r * Real.cos (theta W x) * ((r - G y x * d) / r)) ^ 2 +
      (r * Real.sin (theta W x) * ((r - G y x * d) / r)) ^ 2) = _
  rw [hkey, Real.sqrt_sq_eq_abs]

/-- C5: on a valid grid with intensities in `[0, 1]`, `radius > 0` and
`0 ≤ maxDepth < radius`, every produced position lies at axis distance in
`[radius - maxDepth, radius]`; and with intensity `1` everywhere,
`radius = 1`, `maxDepth = 0.1`, every position is at distance exactly
`0.9`. -/
theorem C5_radial_bounds (G : ℕ → ℕ → ℝ) (H W : ℕ) (r d : ℝ)
    (hH : 2 ≤ H) (hW : 2 ≤ W)
    (hG : ∀ y x, y < H → x < W → 0 ≤ G y x ∧ G y x ≤ 1)
    (hr : 0 < r) (hd0 : 0 ≤ d) (hdr : d < r) :
    (∀ p ∈ (process_vertices G H W r d).1,
      r - d ≤ axisDist p ∧ axisDist p ≤ r) ∧
    (∀ p ∈ (process_vertices (fun _ _ => (1 : ℝ)) H W 1 0.1).1,
      axisDist p = 0.9) := by
  constructor
  · intro p hp
    obtain ⟨y, x, hy, hx, rfl⟩ := mem_grid hp
    rw [axisDist_positionAt _ _ _ _ _ _ _ hr]
    obtain ⟨h0, h1⟩ := hG y x hy hx
    have hdep0 : 0 ≤ G y x * d := mul_nonneg h0 hd0
    have hdep1 : G y x * d ≤ d := by nlinarith
    rw [abs_of_nonneg (by linarith : (0 : ℝ) ≤ r - G y x * d)]
    constructor <;> linarith
  · intro p hp
    obtain ⟨y, x, hy, hx, rfl⟩ := mem_grid hp
    rw [axisDist_positionAt _ _ _ _ _ _ _ one_pos]
    norm_num

theorem C5_radial_bounds_witness :
    1 - (1 / 2 : ℝ) ≤ axisDist (positionAt (fun _ _ => (0 : ℝ)) 2 2 1 (1 / 2) 0 0) ∧
    axisDist (positionAt (fun _ _ => (0 : ℝ)) 2 2 1 (1 / 2) 0 0) ≤ 1 := by
  have h := C5_radial_bounds (fun _ _ => (0 : ℝ)) 2 2 1 (1 / 2) (by norm_num)
    (by norm_num) (fun y x _ _ => by norm_num) one_pos (by norm_num) (by norm_num)
  refine h.1 _ ?_
  exact List.mem_flatMap.mpr ⟨0, by norm_num [List.mem_range],
    List.mem_map.mpr ⟨0, by norm_num [List.mem_range], rfl⟩⟩

/-- C6 counterexample: with `H = 2`, `W = 2`, `radius = -1` (violating
the precondition `radius > 0`) the code does NOT fail fast with any
validation error: `process_vertices` succeeds and emits the full
`2*2 = 4`-vertex output.  No `InvalidGridDimensions` or
`InvalidPhysicalParams` failure exists anywhere in the code. -/
theorem C6_counterexample :
    process_verticesE (fun _ _ => (0 : ℝ)) 2 2 (-1) 0 =
      .ok (process_vertices (fun _ _ => (0 : ℝ)) 2 2 (-1) 0) ∧
    (process_vertices (fun _ _ => (0 : ℝ)) 2 2 (-1) 0).1.length = 2 * 2 :=
  ⟨process_verticesE_eq_ok _ _ _ (by norm_num) (by norm_num),
   length_grid _ _ _⟩

/-- C6 amended: the core performs no input validation at all.  For any
`H ≥ 2`, `W ≥ 2` — regardless of `radius` or `maxDepth` — the projector
succeeds with full `H*W` output; invalid physical parameters are
accepted silently.  The only failures are unhandled `ZeroDivisionError`s
at the very first cell (hence before any vertex is produced) when
`W = 1` (with `H ≥ 1`) or `H = 1` (with `W ≥ 2`); `H = 0` or `W = 0`
silently yields empty output.  `process_faces` never fails. -/
theorem C6_amended (G : ℕ → ℕ → ℝ) (H W : ℕ) (r d : ℝ) :
    (2 ≤ H → 2 ≤ W →
      process_verticesE G H W r d = .ok (process_vertices G H W r d) ∧
      (process_vertices G H W r d).1.length = H * W) ∧
    (1 ≤ H → W = 1 → process_verticesE G H W r d = .error .zeroDivisionError) ∧
    (H = 1 → 2 ≤ W → process_verticesE G H W r d = .error .zeroDivisionError) ∧
    (H = 0 → process_verticesE G H W r d = .ok ([], [], [])) ∧
    (W = 0 → process_verticesE G H W r d = .ok ([], [], [])) :=
  ⟨fun hH hW => ⟨process_verticesE_eq_ok G r d hH hW, length_grid _ _ _⟩,
   fun hH hW => by subst hW; exact process_verticesE_width_one G r d hH,
   fun hH hW => by subst hH; exact process_verticesE_height_one G r d hW,
   fun hH => by subst hH; exact process_verticesE_height_zero G W r d,
   fun hW => by subst hW; exact process_verticesE_width_zero G H r d⟩

theorem C6_amended_witness :
    process_verticesE (fun _ _ => (0 : ℝ)) 1 3 1 0 = .error .zeroDivisionError :=
  (C6_amended (fun _ _ => (0 : ℝ)) 1 3 1 0).2.2.1 rfl (by norm_num)

end HeightmapToCylinder
